import Mathlib

/-
Shallow embedding of the Chord simulator (package chord: simulator.go,
bigIntIdentifier.go, stats.go).

Identifiers are natural numbers; the big-integer identifiers of
bigIntIdentifier.go are arbitrary-precision non-negative integers, and
CmpAbs on them is the usual order on Nat.  A Node allocated by
NewSimulator is identified by its index in the sorted slice
sortedNodes: distinct slice slots hold distinct pointers, so Go pointer
equality on nodes is index equality here (this holds even when two
nodes carry the same identifier).  Finger-table entries and predecessor
links therefore store node indices.

Go's sort.Search returns the least index at which the probed predicate
is true, provided the predicate is monotone (false then true); both
call sites probe a predicate of the form "x < arr[i]" on a
non-decreasing array, where that predicate is monotone, so it is
embedded as the first index satisfying the predicate, computed by a
linear scan.
-/

namespace Chord

/-- Width of the identifier space of bit length m: count = 2^m
(NewBigIntIdentifierSpace). -/
def width (m : Nat) : Nat := 2 ^ m

/-- bigIntIdentifier.IsBetween: membership of x in the closed cyclic
arc from a to b. -/
def IsBetween (x a b : Nat) : Bool :=
  if a ≤ b then decide (x ≤ b) && decide (a ≤ x)
  else decide (x ≤ b) || decide (a ≤ x)

/-- bigIntIdentifier.ComputeFingerTableTarget: res = 2^i; res += n;
res %= count. -/
def ComputeFingerTableTarget (w n i : Nat) : Nat := (2 ^ i + n) % w

/-- The index computed by sort.Search in insertSorted: least i with
x < arr[i], or arr.length when there is none. -/
def findInsertIdx (arr : List Nat) (x : Nat) : Nat :=
  match arr with
  | [] => 0
  | y :: ys => if x < y then 0 else findInsertIdx ys x + 1

/-- insertSorted from simulator.go, on the identifiers of the nodes.
Returns the new array and the success flag. -/
def insertSorted (arr : List Nat) (x : Nat) : List Nat × Bool :=
  if arr.length = 0 then ([x], true)
  else
    let l := arr.length
    let i := findInsertIdx arr x
    if i = l then (arr ++ [x], true)
    else if i < l - 1 ∧ arr.getD i 0 = arr.getD (i + 1) 0 then (arr, false)
    else (arr.take i ++ x :: arr.drop i, true)

/-- The node-creation loop of NewSimulator: insert the drawn
identifiers one by one, aborting with none (errDuplicateIdentifier)
when insertSorted reports failure.  The k-th element of draws is the
k-th value returned by idSpace.Random(). -/
def bootstrapIds (draws : List Nat) : Option (List Nat) :=
  draws.foldl
    (fun acc x => acc.bind fun arr =>
      let r := insertSorted arr x
      if r.2 then some r.1 else none)
    (some [])

/-- The index computed by sort.Search in successor: least j with
t < arr[j], if any. -/
def findFirstGreater (arr : List Nat) (t : Nat) : Option Nat :=
  match arr with
  | [] => none
  | y :: ys => if t < y then some 0 else (findFirstGreater ys t).map (· + 1)

/-- successor from simulator.go: first node whose id is strictly
greater than t, wrapping to index 0 when none qualifies.  Returns the
index of that node in sortedNodes. -/
def successor (arr : List Nat) (t : Nat) : Nat :=
  (findFirstGreater arr t).getD 0

/-- One row of a finger table; node is the index of the successor node
in sortedNodes. -/
structure FingerEntry where
  id : Nat
  node : Nat
deriving DecidableEq

instance : Inhabited FingerEntry := ⟨⟨0, 0⟩⟩

/-- One iteration of the finger-table loop of NewSimulator for a node
with identifier nid: compute nextID, resolve its successor, bump that
successor's inDegree when the table is non-empty and its last entry
holds a different node, and append the entry. -/
def buildFingerStep (w : Nat) (ids : List Nat) (nid : Nat)
    (st : List FingerEntry × List Nat) (i : Nat) :
    List FingerEntry × List Nat :=
  let ft := st.1
  let deg := st.2
  let nextID := ComputeFingerTableTarget w nid i
  let succ := successor ids nextID
  let deg2 :=
    match ft.getLast? with
    | some e => if e.node ≠ succ then deg.set succ (deg.getD succ 0 + 1) else deg
    | none => deg
  (ft ++ [⟨nextID, succ⟩], deg2)

/-- The finger table of one node (loop i = 0 .. m-1 in NewSimulator),
threading the global inDegree counters. -/
def buildNodeFingers (m w : Nat) (ids : List Nat) (nid : Nat)
    (deg : List Nat) : List FingerEntry × List Nat :=
  (List.range m).foldl (buildFingerStep w ids nid) ([], deg)

/-- The link-filling loop of NewSimulator over all nodes: builds every
finger table and the inDegree counters (counters start at zero, as in
a freshly allocated nodeStats). -/
def buildAllFingers (m : Nat) (ids : List Nat) :
    List (List FingerEntry) × List Nat :=
  (List.range ids.length).foldl
    (fun st k =>
      let r := buildNodeFingers m (width m) ids (ids.getD k 0) st.2
      (st.1 ++ [r.1], r.2))
    ([], List.replicate ids.length 0)

/-- State of a completed simulator: bit length, sorted identifiers
(sortedNodes), finger tables and inDegree counters, both indexed like
sortedNodes.  Predecessor links are the function predIdx below. -/
structure ChordSim where
  m : Nat
  ids : List Nat
  tables : List (List FingerEntry)
  inDeg : List Nat
deriving DecidableEq

/-- Predecessor index assigned by NewSimulator:
sortedNodes[(i-1+len)%len]. -/
def predIdx (n k : Nat) : Nat := (k + n - 1) % n

/-- NewSimulator: bootstrap the ring, then fill the links.  none is
the errDuplicateIdentifier return. -/
def NewSimulator (m : Nat) (draws : List Nat) : Option ChordSim :=
  (bootstrapIds draws).map fun ids =>
    let r := buildAllFingers m ids
    { m := m, ids := ids, tables := r.1, inDeg := r.2 }

/-- Outcome of Query: normal return with the hops slice, the
"Routing did not advance" panic, or exhaustion of the step budget of
the embedding (the Go loop is unbounded). -/
inductive QueryOutcome where
  | ok (hops : List Nat)
  | stall (hops : List Nat)
  | fuelOut (hops : List Nat)
deriving DecidableEq

/-- The inner finger scan of Query: walk the finger table from the
highest index down and take the first entry whose id lies on the arc
from the current id to the target; when no entry qualifies the current
node is left unchanged. -/
def selectFinger (cur cid t : Nat) (ft : List FingerEntry) : Nat :=
  match ft.reverse.find? (fun e => IsBetween e.id cid t) with
  | some e => e.node
  | none => cur

/-- One decision of the Query loop body at current node c: none means
"return q" (the query terminates at the current hops), some c2 means
the loop continues with currentNode = c2. -/
def nextHop (sim : ChordSim) (t c : Nat) : Option Nat :=
  let n := sim.ids.length
  let cid := sim.ids.getD c 0
  let p := predIdx n c
  let pid := sim.ids.getD p 0
  if cid = t then none
  else if IsBetween t pid cid then
    if pid = t then some p else none
  else some (selectFinger c cid t (sim.tables.getD c []))

/-- The Query loop: after each move the new current node is compared
with the last recorded hop; equality is the
"Routing did not advance" panic, otherwise the node is appended to
hops. -/
def queryGo (sim : ChordSim) (t : Nat) :
    Nat → Nat → List Nat → QueryOutcome
  | 0, _, hops => QueryOutcome.fuelOut hops
  | fuel + 1, c, hops =>
    match nextHop sim t c with
    | none => QueryOutcome.ok hops
    | some c2 =>
      if hops.getLast? = some c2 then QueryOutcome.stall hops
      else queryGo sim t fuel c2 (hops ++ [c2])

/-- Query from simulator.go: hops starts as the singleton originator
slice. -/
def Query (sim : ChordSim) (t origin fuel : Nat) : QueryOutcome :=
  queryGo sim t fuel origin [origin]

/-- One unit of RunSimulation's workload given a drawn (target,
originator-index) pair: run the query and increment the
numQueriesReceived counter of the result node (the last hop).  none
when the query does not return normally (the goroutine would panic).
Atomic increments commute, so the counters after a K-unit run equal
this sequential fold over the K drawn pairs. -/
def runQueries (sim : ChordSim) (fuel : Nat) :
    List (Nat × Nat) → List Nat → Option (List Nat)
  | [], counters => some counters
  | (t, o) :: rest, counters =>
    match Query sim t o fuel with
    | QueryOutcome.ok hops =>
      let r := (hops.getLast?).getD 0
      runQueries sim fuel rest (counters.set r (counters.getD r 0 + 1))
    | _ => none

/-- RunSimulation from stats.go, restricted to the numQueriesReceived
counters: they are first reset to zero for every node, then each query
bumps exactly its result node's counter. -/
def RunSimulation (sim : ChordSim) (fuel : Nat)
    (pairs : List (Nat × Nat)) : Option (List Nat) :=
  runQueries sim fuel pairs (List.replicate sim.ids.length 0)

/-- Spec-side predicate: the list of identifiers is strictly
ascending (every element strictly below its right neighbour). -/
def strictAscending : List Nat → Bool
  | [] => true
  | [_] => true
  | a :: b :: r => decide (a < b) && strictAscending (b :: r)

/-- Spec-side predicate: adjacent hops are pairwise distinct nodes. -/
def adjacentDistinct : List Nat → Bool
  | [] => true
  | [_] => true
  | a :: b :: r => (a != b) && adjacentDistinct (b :: r)

/-- Spec-side description of a finger-table successor as the spec
words it after correction: j is the index of the first ring member
whose id is strictly greater than t, wrapping to the minimum-id node
(index 0 of the ascending list) when no member's id exceeds t. -/
def isCyclicStrictSuccessor (ids : List Nat) (t j : Nat) : Prop :=
  j < ids.length ∧
  (∀ k, k < j → ids.getD k 0 ≤ t) ∧
  (t < ids.getD j 0 ∨ (j = 0 ∧ ∀ k, k < ids.length → ids.getD k 0 ≤ t))

instance (ids : List Nat) (t j : Nat) :
    Decidable (isCyclicStrictSuccessor ids t j) := by
  unfold isCyclicStrictSuccessor
  infer_instance

/-- Spec-side description of the successor the claim about finger
tables names: the first ring member whose id is greater than or equal
to t, wrapping to the minimum-id node when t exceeds all ids. -/
def findFirstGe (arr : List Nat) (t : Nat) : Option Nat :=
  match arr with
  | [] => none
  | y :: ys => if t ≤ y then some 0 else (findFirstGe ys t).map (· + 1)

/-- Index of the claimed (greater-or-equal) cyclic successor. -/
def claimSuccessor (arr : List Nat) (t : Nat) : Nat :=
  (findFirstGe arr t).getD 0

/-- Spec-side in-degree of node v as the claim words it: pairs
(source s, slot i) with s.FingerTable[i].Node = v where i is the
first slot or the previous slot holds a different node. -/
def claimedInDegree (tables : List (List FingerEntry)) (v : Nat) : Nat :=
  (tables.map fun row =>
    ((List.range row.length).filter fun i =>
      (row.getD i default).node = v ∧
        (i = 0 ∨ (row.getD (i - 1) default).node ≠ v)).length).sum

/-- The finger table NewSimulator assigns to a node with identifier
nid, described entry-wise (proved below to be what the build fold
produces). -/
def fingerRow (m w : Nat) (ids : List Nat) (nid : Nat) : List FingerEntry :=
  (List.range m).map fun i =>
    ⟨ComputeFingerTableTarget w nid i,
      successor ids (ComputeFingerTableTarget w nid i)⟩

/-- The simulator NewSimulator builds from bit length 3 and draws
0, 1; a concrete instance for the closed corollaries below. -/
def simPair : ChordSim :=
  ⟨3, [0, 1],
    [[⟨1, 0⟩, ⟨2, 0⟩, ⟨4, 0⟩], [⟨2, 0⟩, ⟨3, 0⟩, ⟨5, 0⟩]], [0, 0]⟩

theorem buildFingerStep_fst (w : Nat) (ids : List Nat) (nid : Nat)
    (st : List FingerEntry × List Nat) (i : Nat) :
    (buildFingerStep w ids nid st i).1 =
      st.1 ++ [⟨ComputeFingerTableTarget w nid i,
        successor ids (ComputeFingerTableTarget w nid i)⟩] := rfl

theorem foldl_buildFingerStep_fst (w : Nat) (ids : List Nat) (nid : Nat)
    (l : List Nat) :
    ∀ (ft : List FingerEntry) (deg : List Nat),
      (l.foldl (buildFingerStep w ids nid) (ft, deg)).1 =
        ft ++ l.map (fun i =>
          ⟨ComputeFingerTableTarget w nid i,
            successor ids (ComputeFingerTableTarget w nid i)⟩) := by
  induction l with
  | nil => intro ft deg; simp
  | cons a rest ih =>
    intro ft deg
    simp only [List.foldl_cons, List.map_cons]
    rw [show buildFingerStep w ids nid (ft, deg) a =
      (ft ++ [⟨ComputeFingerTableTarget w nid a,
        successor ids (ComputeFingerTableTarget w nid a)⟩],
        (buildFingerStep w ids nid (ft, deg) a).2) from rfl]
    rw [ih]
    simp

theorem buildNodeFingers_fst (m w : Nat) (ids : List Nat) (nid : Nat)
    (deg : List Nat) :
    (buildNodeFingers m w ids nid deg).1 = fingerRow m w ids nid := by
  unfold buildNodeFingers fingerRow
  rw [foldl_buildFingerStep_fst]
  simp

theorem buildAllFingers_fst (m : Nat) (ids : List Nat) :
    (buildAllFingers m ids).1 =
      (List.range ids.length).map
        (fun k => fingerRow m (width m) ids (ids.getD k 0)) := by
  unfold buildAllFingers
  generalize List.replicate ids.length 0 = deg0
  have main : ∀ (l : List Nat) (tbls : List (List FingerEntry))
      (deg : List Nat),
      (l.foldl
        (fun st k =>
          let r := buildNodeFingers m (width m) ids (ids.getD k 0) st.2
          (st.1 ++ [r.1], r.2)) (tbls, deg)).1 =
        tbls ++ l.map (fun k => fingerRow m (width m) ids (ids.getD k 0)) := by
    intro l
    induction l with
    | nil => intro tbls deg; simp
    | cons a rest ih =>
      intro tbls deg
      simp only [List.foldl_cons, List.map_cons]
      rw [ih]
      rw [buildNodeFingers_fst]
      simp
  exact main _ _ _

theorem getD_map_range (n k : Nat) (f : Nat → List FingerEntry)
    (hk : k < n) :
    (((List.range n).map f).getD k []) = f k := by
  rw [List.getD_eq_getElem?_getD]
  rw [List.getElem?_map]
  rw [List.getElem?_range hk]
  rfl

theorem NewSimulator_tables (m : Nat) (draws : List Nat) (sim : ChordSim)
    (h : NewSimulator m draws = some sim) :
    sim.tables =
      (List.range sim.ids.length).map
        (fun k => fingerRow m (width m) sim.ids (sim.ids.getD k 0)) := by
  unfold NewSimulator at h
  cases hb : bootstrapIds draws with
  | none => rw [hb] at h; simp at h
  | some ids =>
    rw [hb] at h
    simp only [Option.map_some] at h
    cases h
    simpa using buildAllFingers_fst m ids

theorem entryD_eq (m : Nat) (draws : List Nat) (sim : ChordSim)
    (k i : Nat) (h : NewSimulator m draws = some sim)
    (hk : k < sim.ids.length) (hi : i < m) :
    (sim.tables.getD k []).getD i default =
      ⟨ComputeFingerTableTarget (width m) (sim.ids.getD k 0) i,
        successor sim.ids
          (ComputeFingerTableTarget (width m) (sim.ids.getD k 0) i)⟩ := by
  rw [NewSimulator_tables m draws sim h]
  rw [getD_map_range _ _ _ hk]
  unfold fingerRow
  rw [List.getD_eq_getElem?_getD, List.getElem?_map, List.getElem?_range hi]
  rfl

theorem findFirstGreater_some (arr : List Nat) (t : Nat) :
    ∀ (j : Nat), findFirstGreater arr t = some j →
      j < arr.length ∧ t < arr.getD j 0 ∧ ∀ k, k < j → arr.getD k 0 ≤ t := by
  induction arr with
  | nil => intro j h; simp [findFirstGreater] at h
  | cons y ys ih =>
    intro j h
    unfold findFirstGreater at h
    by_cases hty : t < y
    · rw [if_pos hty] at h
      cases h
      refine ⟨by simp, by simpa using hty, ?_⟩
      intro k hk; omega
    · rw [if_neg hty] at h
      rcases Option.map_eq_some'.mp h with ⟨j0, hj0, rfl⟩
      rcases ih j0 hj0 with ⟨h1, h2, h3⟩
      refine ⟨by simpa using h1, by simpa using h2, ?_⟩
      intro k hk
      cases k with
      | zero => simpa using Nat.le_of_not_lt hty
      | succ k0 =>
        have := h3 k0 (by omega)
        simpa using this

theorem findFirstGreater_none (arr : List Nat) (t : Nat) :
    findFirstGreater arr t = none →
      ∀ k, k < arr.length → arr.getD k 0 ≤ t := by
  induction arr with
  | nil => intro _ k hk; simp at hk
  | cons y ys ih =>
    intro h k hk
    unfold findFirstGreater at h
    by_cases hty : t < y
    · rw [if_pos hty] at h; simp at h
    · rw [if_neg hty] at h
      simp only [Option.map_eq_none'] at h
      cases k with
      | zero => simpa using Nat.le_of_not_lt hty
      | succ k0 =>
        have := ih h k0 (by simpa using Nat.lt_of_succ_lt_succ hk)
        simpa using this

theorem successor_spec (arr : List Nat) (t : Nat) (hne : arr ≠ []) :
    isCyclicStrictSuccessor arr t (successor arr t) := by
  unfold successor isCyclicStrictSuccessor
  cases hf : findFirstGreater arr t with
  | some j =>
    rcases findFirstGreater_some arr t j hf with ⟨h1, h2, h3⟩
    exact ⟨by simpa using h1, by simpa using h3, Or.inl (by simpa using h2)⟩
  | none =>
    have hall := findFirstGreater_none arr t hf
    refine ⟨?_, ?_, Or.inr ⟨rfl, hall⟩⟩
    · simpa using List.length_pos.mpr hne
    · intro k hk; simp at hk

theorem adjacentDistinct_concat (l : List Nat) (x : Nat)
    (hl : adjacentDistinct l = true) (hx : l.getLast? ≠ some x) :
    adjacentDistinct (l ++ [x]) = true := by
  induction l with
  | nil => rfl
  | cons a rest ih =>
    cases rest with
    | nil =>
      have hax : a ≠ x := by
        intro hh; exact hx (by simp [hh])
      simp [adjacentDistinct, hax]
    | cons b r =>
      have hab : adjacentDistinct (b :: r) = true := by
        have := hl
        unfold adjacentDistinct at this
        exact (Bool.and_eq_true _ _).mp this |>.2
      have hanb : (a != b) = true := by
        have := hl
        unfold adjacentDistinct at this
        exact (Bool.and_eq_true _ _).mp this |>.1
      have hx2 : (b :: r).getLast? ≠ some x := by
        simpa [List.getLast?] using hx
      have := ih hab hx2
      simp only [List.cons_append] at this ⊢
      unfold adjacentDistinct
      rw [Bool.and_eq_true]
      exact ⟨hanb, by simpa using this⟩

theorem head?_concat (l : List Nat) (x : Nat) (h : l ≠ []) :
    (l ++ [x]).head? = l.head? := by
  cases l with
  | nil => exact absurd rfl h
  | cons a r => rfl

theorem getLast?_mem_self (l : List Nat) (y : Nat)
    (h : l.getLast? = some y) : y ∈ l := by
  induction l with
  | nil => simp at h
  | cons a r ih =>
    cases r with
    | nil => simp at h; simp [h]
    | cons b s =>
      have : (b :: s).getLast? = some y := by simpa [List.getLast?] using h
      exact List.mem_cons_of_mem a (ih this)

theorem queryGo_ok_props (sim : ChordSim) (t : Nat) :
    ∀ (fuel c : Nat) (hops0 hops : List Nat),
      hops0 ≠ [] → hops0.getLast? = some c →
      adjacentDistinct hops0 = true →
      queryGo sim t fuel c hops0 = QueryOutcome.ok hops →
      hops ≠ [] ∧ hops.head? = hops0.head? ∧ adjacentDistinct hops = true := by
  intro fuel
  induction fuel with
  | zero =>
    intro c hops0 hops _ _ _ hstep
    simp [queryGo] at hstep
  | succ fuel ih =>
    intro c hops0 hops h1 h2 h3 hstep
    simp only [queryGo] at hstep
    cases hnh : nextHop sim t c with
    | none =>
      rw [hnh] at hstep
      dsimp only at hstep
      simp only [QueryOutcome.ok.injEq] at hstep
      subst hstep
      exact ⟨h1, rfl, h3⟩
    | some c2 =>
      rw [hnh] at hstep
      dsimp only at hstep
      by_cases hguard : hops0.getLast? = some c2
      · rw [if_pos hguard] at hstep; simp at hstep
      · rw [if_neg hguard] at hstep
        have hres := ih c2 (hops0 ++ [c2]) hops (by simp)
          (by simp) (adjacentDistinct_concat hops0 c2 h3 hguard) hstep
        exact ⟨hres.1, by rw [hres.2.1, head?_concat hops0 c2 h1], hres.2.2⟩

theorem nextHop_lt (sim : ChordSim)
    (hwf : ∀ row ∈ sim.tables, ∀ e ∈ row, e.node < sim.ids.length)
    (t c c2 : Nat) (hc : c < sim.ids.length)
    (h : nextHop sim t c = some c2) : c2 < sim.ids.length := by
  have hn : 0 < sim.ids.length := Nat.lt_of_le_of_lt (Nat.zero_le c) hc
  simp only [nextHop] at h
  split at h
  · simp at h
  · split at h
    · split at h
      · cases h
        exact Nat.mod_lt _ hn
      · simp at h
    · cases h
      unfold selectFinger
      cases hf : (sim.tables.getD c []).reverse.find?
          (fun e => IsBetween e.id (sim.ids.getD c 0) t) with
      | none => exact hc
      | some e =>
        have hmem : e ∈ (sim.tables.getD c []).reverse :=
          List.mem_of_find?_eq_some hf
        rw [List.mem_reverse] at hmem
        by_cases hct : c < sim.tables.length
        · have : sim.tables.getD c [] ∈ sim.tables := by
            rw [List.getD_eq_getElem?_getD, List.getElem?_eq_getElem hct]
            exact List.getElem_mem hct
          exact hwf _ this e hmem
        · have : sim.tables.getD c [] = [] := by
            rw [List.getD_eq_getElem?_getD,
              List.getElem?_eq_none (Nat.le_of_not_lt hct)]
            rfl
          rw [this] at hmem
          simp at hmem

theorem NewSimulator_wf (m : Nat) (draws : List Nat) (sim : ChordSim)
    (h : NewSimulator m draws = some sim) :
    ∀ row ∈ sim.tables, ∀ e ∈ row, e.node < sim.ids.length := by
  rw [NewSimulator_tables m draws sim h]
  intro row hrow e he
  rcases List.mem_map.mp hrow with ⟨k, hk, rfl⟩
  rcases List.mem_map.mp he with ⟨i, _, rfl⟩
  have hne : sim.ids ≠ [] := by
    intro hnil
    rw [hnil] at hk
    simp at hk
  exact (successor_spec sim.ids _ hne).1

theorem queryGo_ok_bound (sim : ChordSim) (t : Nat)
    (hwf : ∀ row ∈ sim.tables, ∀ e ∈ row, e.node < sim.ids.length) :
    ∀ (fuel c : Nat) (hops0 hops : List Nat),
      c < sim.ids.length → (∀ x ∈ hops0, x < sim.ids.length) →
      queryGo sim t fuel c hops0 = QueryOutcome.ok hops →
      ∀ x ∈ hops, x < sim.ids.length := by
  intro fuel
  induction fuel with
  | zero =>
    intro c hops0 hops _ _ hstep
    simp [queryGo] at hstep
  | succ fuel ih =>
    intro c hops0 hops hc h0 hstep
    simp only [queryGo] at hstep
    cases hnh : nextHop sim t c with
    | none =>
      rw [hnh] at hstep
      dsimp only at hstep
      simp only [QueryOutcome.ok.injEq] at hstep
      subst hstep
      exact h0
    | some c2 =>
      rw [hnh] at hstep
      dsimp only at hstep
      by_cases hguard : hops0.getLast? = some c2
      · rw [if_pos hguard] at hstep; simp at hstep
      · rw [if_neg hguard] at hstep
        have hc2 := nextHop_lt sim hwf t c c2 hc hnh
        refine ih c2 (hops0 ++ [c2]) hops hc2 ?_ hstep
        intro x hx
        rcases List.mem_append.mp hx with hx | hx
        · exact h0 x hx
        · simp at hx
          rw [hx]
          exact hc2

theorem sum_set_getD_add_one :
    ∀ (l : List Nat) (r : Nat), r < l.length →
      (l.set r (l.getD r 0 + 1)).sum = l.sum + 1 := by
  intro l
  induction l with
  | nil => intro r hr; simp at hr
  | cons a as ih =>
    intro r hr
    cases r with
    | zero => simp [List.getD]; omega
    | succ r0 =>
      have hr0 : r0 < as.length := by simpa using Nat.lt_of_succ_lt_succ hr
      simp only [List.set, List.getD_cons_succ, List.sum_cons]
      rw [ih r0 hr0]
      omega

theorem runQueries_sum (sim : ChordSim) (fuel : Nat)
    (hwf : ∀ row ∈ sim.tables, ∀ e ∈ row, e.node < sim.ids.length) :
    ∀ (pairs : List (Nat × Nat)) (counters out : List Nat),
      (∀ p ∈ pairs, p.2 < sim.ids.length) →
      counters.length = sim.ids.length →
      runQueries sim fuel pairs counters = some out →
      out.sum = counters.sum + pairs.length := by
  intro pairs
  induction pairs with
  | nil =>
    intro counters out _ _ h
    simp only [runQueries, Option.some.injEq] at h
    subst h
    simp
  | cons pr rest ih =>
    intro counters out hp hl h
    obtain ⟨t, o⟩ := pr
    simp only [runQueries] at h
    cases hq : Query sim t o fuel with
    | ok hops =>
      rw [hq] at h
      dsimp only at h
      have ho : o < sim.ids.length := hp (t, o) (by simp)
      have hprops := queryGo_ok_props sim t fuel o [o] hops
        (List.cons_ne_nil o []) rfl rfl hq
      have hbound := queryGo_ok_bound sim t hwf fuel o [o] hops ho
        (by intro x hx; simp at hx; rw [hx]; exact ho) hq
      have hlast : ∃ y, hops.getLast? = some y := by
        cases hgl : hops.getLast? with
        | none => exact absurd (List.getLast?_eq_none_iff.mp hgl) hprops.1
        | some y => exact ⟨y, rfl⟩
      obtain ⟨y, hy⟩ := hlast
      have hylt : y < sim.ids.length := hbound y (getLast?_mem_self hops y hy)
      have hr : (hops.getLast?).getD 0 = y := by rw [hy]; rfl
      rw [hr] at h
      have hres := ih (counters.set y (counters.getD y 0 + 1)) out
        (fun p hp2 => hp p (List.mem_cons_of_mem _ hp2))
        (by rw [List.length_set]; exact hl) h
      rw [hres, sum_set_getD_add_one counters y (by rw [hl]; exact hylt)]
      simp only [List.length_cons]
      omega
    | stall hops => rw [hq] at h; simp at h
    | fuelOut hops => rw [hq] at h; simp at h

/-- C1: the claim says NewSimulator rejects a repeated identifier with
the DuplicateIdentifier error and that insertSorted returns false on an
equal id.  The code does neither: with a constant identifier space
(draws 5, 5) insertSorted appends the duplicate and reports success,
and NewSimulator returns a two-node simulator instead of the error.
The duplicate test in insertSorted compares arr[i] with arr[i+1]
rather than the inserted id with its neighbour, so a fresh duplicate is
never detected. -/
theorem c1_duplicate_not_rejected :
    insertSorted [5] 5 = ([5, 5], true) ∧
      (NewSimulator 3 [5, 5]).map ChordSim.ids = some [5, 5] := by
  decide

/-- C3: the claim says Query never raises the routing-stall panic on a
network NewSimulator constructed (any N at least 1).  Counterexample:
the single-node network with m = 3 and id 3 is constructed
successfully, yet the query for target 5 from that node hits the
"Routing did not advance" panic: the predecessor arc degenerates to
the single point 3, no termination branch applies, and the finger scan
selects the node itself. -/
theorem c3_routing_stall_on_constructed_network :
    (NewSimulator 3 [3]).map (fun s => Query s 5 0 5) =
      some (QueryOutcome.stall [0]) := by
  decide

/-- C4: the claim (spec scenario S4) says that in the single-node
network with m = 3 and id 3 the query for target 0 returns result node
3 with zero hops.  The code instead panics with
"Routing did not advance" on that exact input. -/
theorem c4_single_node_query_panics :
    (NewSimulator 3 [3]).map (fun s => Query s 0 0 5) =
      some (QueryOutcome.stall [0]) := by
  decide

/-- C5: the claim says the first finger-table entry of every node is
always counted towards its successor's in_degree.  The code guards the
increment with a non-empty-table test, so the first entry is never
counted: in the single-node network with m = 1 the only node's
in_degree stays 0 while the claimed count of collapsed (source, slot)
pairs is 1. -/
theorem c5_first_entry_not_counted :
    (NewSimulator 1 [0]).map
        (fun s => (s.inDeg, claimedInDegree s.tables 0)) =
      some ([0], 1) := by
  decide

/-- C7: the claim says every network NewSimulator returns has strictly
ascending identifiers.  Because insertSorted fails to reject
duplicates, NewSimulator succeeds on the constant draws 2, 2 and
Nodes() yields [2, 2], which is not strictly ascending. -/
theorem c7_nodes_not_strictly_ascending :
    (NewSimulator 3 [2, 2]).map
        (fun s => (s.ids, strictAscending s.ids)) =
      some ([2, 2], false) := by
  decide

/-- C2 counterexample: in the network built from draws 0, 1 with
m = 3, node 0's finger entry 0 has target id 1, which is exactly the
id of the member at index 1; the claim says that member itself is
stored, but the code stores the member at index 0 (successor uses
strict inequality and wraps). -/
theorem c2_counterexample_equal_target :
    (NewSimulator 3 [0, 1]).map
        (fun s => (s.ids, (s.tables.getD 0 []).getD 0 default)) =
      some ([0, 1], ⟨1, 0⟩) ∧
      claimSuccessor [0, 1] 1 = 1 ∧ (0 : Nat) ≠ 1 := by
  decide

/-- C2 (amended): in every network NewSimulator returns, every
finger-table entry stores the first ring member whose id is strictly
greater than the entry's target id, wrapping to the minimum-id node
(index 0) when no member's id exceeds the target; when the target
equals a member's id the stored node is that member's cyclic
successor, not the member itself. -/
theorem c2_finger_successor_strict (m : Nat) (draws : List Nat)
    (sim : ChordSim) (k i : Nat) (h : NewSimulator m draws = some sim)
    (hk : k < sim.ids.length) (hi : i < m) :
    isCyclicStrictSuccessor sim.ids
      ((sim.tables.getD k []).getD i default).id
      ((sim.tables.getD k []).getD i default).node := by
  rw [entryD_eq m draws sim k i h hk hi]
  refine successor_spec sim.ids _ ?_
  intro hnil
  rw [hnil] at hk
  simp at hk

/-- C2 witness: the amended statement instantiated on the network
built from draws 0, 1 with m = 3, node 0, entry 0. -/
theorem c2_finger_successor_strict_witness :
    isCyclicStrictSuccessor [0, 1] 1 0 :=
  c2_finger_successor_strict 3 [0, 1] simPair 0 0 (by decide) (by decide)
    (by decide)

/-- C6: ComputeFingerTableTarget returns (n + 2^i) mod 2^m for every
identifier n, and in every network NewSimulator returns, finger entry
i of every node stores exactly that value for the node's own id as its
target id. -/
theorem c6_finger_targets (m : Nat) (draws : List Nat) (sim : ChordSim)
    (k i n : Nat) (h : NewSimulator m draws = some sim)
    (hk : k < sim.ids.length) (hi : i < m) :
    ComputeFingerTableTarget (width m) n i = (n + 2 ^ i) % 2 ^ m ∧
      ((sim.tables.getD k []).getD i default).id =
        (sim.ids.getD k 0 + 2 ^ i) % 2 ^ m := by
  constructor
  · unfold ComputeFingerTableTarget width
    rw [Nat.add_comm]
  · rw [entryD_eq m draws sim k i h hk hi]
    show ComputeFingerTableTarget (width m) (sim.ids.getD k 0) i = _
    unfold ComputeFingerTableTarget width
    rw [Nat.add_comm]

/-- C6 witness: the statement instantiated on the network built from
draws 0, 1 with m = 3, node 0, entry 0, and the free identifier 6. -/
theorem c6_finger_targets_witness :
    ComputeFingerTableTarget (width 3) 6 0 = (6 + 2 ^ 0) % 2 ^ 3 ∧
      ((simPair.tables.getD 0 []).getD 0 default).id =
        (simPair.ids.getD 0 0 + 2 ^ 0) % 2 ^ 3 :=
  c6_finger_targets 3 [0, 1] simPair 0 0 6 (by decide) (by decide) (by decide)

/-- C8: whenever Query returns normally, the hops slice is non-empty,
starts at the originating node, and no two adjacent hops are the same
node (the stall check guards every append). -/
theorem c8_hops_invariant (sim : ChordSim) (t o fuel : Nat)
    (hops : List Nat) (h : Query sim t o fuel = QueryOutcome.ok hops) :
    hops ≠ [] ∧ hops.head? = some o ∧ adjacentDistinct hops = true := by
  have hres := queryGo_ok_props sim t fuel o [o] hops
    (List.cons_ne_nil o []) rfl rfl h
  exact ⟨hres.1, hres.2.1, hres.2.2⟩

/-- C8 witness: the query for target 0 from node 0 of the network
built from draws 0, 1 returns the single-hop slice. -/
theorem c8_hops_invariant_witness :
    ([0] : List Nat) ≠ [] ∧ ([0] : List Nat).head? = some 0 ∧
      adjacentDistinct [0] = true :=
  c8_hops_invariant simPair 0 0 5 [0] (by decide)

/-- C9: after RunSimulation completes a run over K drawn (target,
originator) pairs on a network NewSimulator returned, the sum of the
per-node numQueriesReceived counters equals K: counters are zeroed
first and each query bumps exactly its result node's counter once.
The concurrent units of stats.go only touch the counters through
commuting atomic increments, so the sequential fold runQueries yields
the same final counters. -/
theorem c9_queries_received_sum (m : Nat) (draws : List Nat)
    (sim : ChordSim) (fuel : Nat) (pairs : List (Nat × Nat))
    (out : List Nat) (h : NewSimulator m draws = some sim)
    (ho : ∀ p ∈ pairs, p.2 < sim.ids.length)
    (hr : RunSimulation sim fuel pairs = some out) :
    out.sum = pairs.length := by
  have hwf := NewSimulator_wf m draws sim h
  unfold RunSimulation at hr
  have hres := runQueries_sum sim fuel hwf pairs
    (List.replicate sim.ids.length 0) out ho (by simp) hr
  simpa using hres

/-- C9 witness: one query for target 0 from node 0 on the network
built from draws 0, 1 yields counters summing to 1. -/
theorem c9_queries_received_sum_witness :
    ([1, 0] : List Nat).sum =
      ([((0 : Nat), (0 : Nat))] : List (Nat × Nat)).length :=
  c9_queries_received_sum 3 [0, 1] simPair 9 [(0, 0)] [1, 0] (by decide)
    (by decide) (by decide)

/-- C10: IsBetween x a a holds exactly when x equals a: the degenerate
arc whose endpoints coincide contains the single point a, not the
whole ring. -/
theorem c10_isBetween_point_arc (x a : Nat) :
    IsBetween x a a = (x == a) := by
  unfold IsBetween
  rw [if_pos (Nat.le_refl a)]
  rw [Bool.eq_iff_iff]
  simp only [Bool.and_eq_true, decide_eq_true_eq, beq_iff_eq]
  omega

end Chord
